import Mathlib

/-!
Verification development for the `or-tools-rs` routing wrapper
(`src/constraint_solver/routing.rs`, `routing_index_manager.rs`).

The repository is a thin binding layer: the semantics of the index manager,
the path-variable invariants, the dimensions and the solve entry point are
implemented behind the binding boundary and are specified by the doc comments
of the binding functions and by `spec.md`.  The definitions below are shallow
embeddings of that specified behaviour; each definition whose implementation
is not present in the Rust sources carries a doc comment starting with
`Modelled from the spec:`.
-/

namespace OrTools

/-! ## Index manager

Modelled after `RoutingIndexManager` (`routing_index_manager.rs`): a mapping
between problem nodes `[0, num_nodes)` and solver variable indices
`[0, num_indices)`, where `num_indices = 2 * num_vehicles + number of
non-start-or-end nodes`. -/

/-- Modelled from the spec: the construction data of `RoutingIndexManager::new`
(`num_nodes`, per-vehicle start nodes and end nodes in registration order);
the C++ side that materialises the node-to-index tables is not in the Rust
sources. -/
structure RoutingIndexManager where
  num_nodes : Nat
  starts : List Nat
  ends : List Nat

/-- Number of vehicles: one start per vehicle, in registration order. -/
def RoutingIndexManager.num_vehicles (m : RoutingIndexManager) : Nat :=
  m.starts.length

/-- Nodes that are used neither as a start nor as an end node. -/
def RoutingIndexManager.interior_nodes (m : RoutingIndexManager) : List Nat :=
  (List.range m.num_nodes).filter (fun node => decide (node ∉ m.starts ∧ node ∉ m.ends))

/-- Number of non-start-or-end nodes. -/
def RoutingIndexManager.num_interior (m : RoutingIndexManager) : Nat :=
  m.interior_nodes.length

/-- Modelled from the spec: `num_indices = 2 * num_vehicles + number of
non-start-or-end nodes` (doc comment of `RoutingIndexManager`). -/
def RoutingIndexManager.num_indices (m : RoutingIndexManager) : Nat :=
  m.num_interior + 2 * m.num_vehicles

/-- Modelled from the spec: `get_start_index(vehicle)`; start indices occupy the
block of variable indices right after the non-start-or-end nodes. -/
def RoutingIndexManager.start_index (m : RoutingIndexManager) (vehicle : Nat) : Nat :=
  m.num_interior + vehicle

/-- Modelled from the spec: `get_end_index(vehicle)`; end indices occupy the last
block of variable indices. -/
def RoutingIndexManager.end_index (m : RoutingIndexManager) (vehicle : Nat) : Nat :=
  m.num_interior + m.num_vehicles + vehicle

/-- Modelled from the spec: `index_to_node(index)`, a total function over the
valid index range; multiple indices may map to the same node. -/
def RoutingIndexManager.index_to_node (m : RoutingIndexManager) (index : Nat) : Nat :=
  if index < m.num_interior then m.interior_nodes.getD index 0
  else if index < m.num_interior + m.num_vehicles then
    m.starts.getD (index - m.num_interior) 0
  else
    m.ends.getD (index - m.num_interior - m.num_vehicles) 0

/-- Position of the first occurrence of `node` in a node list, if any. -/
def findStart : List Nat → Nat → Option Nat
  | [], _ => none
  | s :: rest, node =>
    if s = node then some 0 else (findStart rest node).map (· + 1)

/-- The sentinel returned by `node_to_index` for nodes with no index
(`kUnassigned`). -/
def kUnassigned : Int := -1

/-- Modelled from the spec: `node_to_index(node)`. If the node appears as a
start node, the start index of the first vehicle (in registration order) using
it is returned; a node that is neither a start nor an end resolves to its own
variable index; all end nodes resolve to `kUnassigned` (documented quirk). -/
def RoutingIndexManager.node_to_index (m : RoutingIndexManager) (node : Nat) : Int :=
  match findStart m.starts node with
  | some v => ((m.start_index v : Nat) : Int)
  | none =>
    match findStart m.interior_nodes node with
    | some k => (k : Int)
    | none => kUnassigned

/-- Index manager with a start node shared by two vehicles. -/
def mgrSharedStart : RoutingIndexManager := ⟨4, [1, 1], [2, 3]⟩

/-- Index manager whose vehicles have pairwise distinct start nodes. -/
def mgrDistinctStarts : RoutingIndexManager := ⟨5, [1, 3], [2, 2]⟩

/-! ## Path variables and accepted assignments

Modelled from the spec: an accepted `Assignment` of a `RoutingModel` values the
path variables `next(i)`, `active(i)` and `vehicle(i)`.  The solving engine
(external to the Rust sources) only accepts assignments that decompose into
per-vehicle routes: vehicle `v` starts at its start index, visits a sequence of
interior indices, and terminates at its end index; every index not on a route
is inactive.  Variable indices below `size` carry next/active/vehicle
variables; the end index of vehicle `v` is `size + v`. -/

/-- Modelled from the spec: the route structure of an accepted assignment —
per-vehicle start index and visited interior indices. -/
structure RouteSet where
  size : Nat
  num_vehicles : Nat
  startOf : Nat → Nat
  interior : Nat → List Nat

/-- The full route of vehicle `v` (start then interior nodes), excluding the
terminal end index. -/
def RouteSet.routeL (rs : RouteSet) (v : Nat) : List Nat :=
  rs.startOf v :: rs.interior v

/-- The end index of vehicle `v`. -/
def RouteSet.endIndex (rs : RouteSet) (v : Nat) : Nat :=
  rs.size + v

/-- The vehicle whose route visits index `i`, if any. -/
def RouteSet.vehicleOf? (rs : RouteSet) (i : Nat) : Option Nat :=
  (List.range rs.num_vehicles).find? (fun v => decide (i ∈ rs.routeL v))

/-- Value of the `active(i)` variable in the accepted assignment. -/
def RouteSet.activeFn (rs : RouteSet) (i : Nat) : Bool :=
  (rs.vehicleOf? i).isSome

/-- Value of the `vehicle(i)` variable in the accepted assignment (`-1` means
no vehicle). -/
def RouteSet.vehicleFn (rs : RouteSet) (i : Nat) : Int :=
  if i < rs.size then
    match rs.vehicleOf? i with
    | some v => (v : Int)
    | none => -1
  else if i < rs.size + rs.num_vehicles then ((i - rs.size : Nat) : Int)
  else -1

/-- Successor of `i` in a route list whose terminal successor is `e`. -/
def succIn : List Nat → Nat → Nat → Option Nat
  | [], _, _ => none
  | a :: rest, e, i =>
    if a = i then some (rest.headD e) else succIn rest e i

/-- Value of the `next(i)` variable in the accepted assignment: the successor
on the owning route (falling through to the vehicle's end index), or `i`
itself when `i` is inactive. -/
def RouteSet.nextFn (rs : RouteSet) (i : Nat) : Nat :=
  if i < rs.size then
    match rs.vehicleOf? i with
    | some v => (succIn (rs.routeL v) (rs.endIndex v) i).getD i
    | none => i
  else i

/-- Well-formedness of the route structure: routes stay within the
next-variable index range, repeat no index, and are pairwise disjoint. -/
abbrev RouteSet.WF (rs : RouteSet) : Prop :=
  (∀ v, v < rs.num_vehicles → ∀ i ∈ rs.routeL v, i < rs.size) ∧
  (∀ v, v < rs.num_vehicles → (rs.routeL v).Nodup) ∧
  (∀ v, v < rs.num_vehicles → ∀ w, w < rs.num_vehicles →
    (v = w ∨ ∀ i ∈ rs.routeL v, i ∉ rs.routeL w))

/-! ## Dimensions

Modelled from the spec (`add_dimension` doc comment): a dimension attaches to
every variable index a `cumul`, a `transit` and a `slack` variable, with
`cumul(next(i)) = cumul(i) + transit(i) + slack(i)` along every route; the
transit and slack of an unvisited index contribute nothing. -/

/-- Modelled from the spec: the solution values of a dimension — the transit
evaluator, the slack chosen by the search at each visited index, and the cumul
value at each vehicle start. -/
structure DimSolution where
  fixedTransit : Nat → Int
  slackRaw : Nat → Int
  startCumul : Nat → Int

/-- Value of the `transit(i)` variable: the evaluator value at a visited index,
`0` at an unvisited one. -/
def transitVal (rs : RouteSet) (ds : DimSolution) (i : Nat) : Int :=
  if rs.activeFn i then ds.fixedTransit i else 0

/-- Value of the `slack(i)` variable: the search's slack at a visited index,
`0` at an unvisited one. -/
def slackVal (rs : RouteSet) (ds : DimSolution) (i : Nat) : Int :=
  if rs.activeFn i then ds.slackRaw i else 0

/-- Cumul value accumulated along a route list up to `i`: starting from `c`,
each step adds the transit and slack of the index being left. -/
def cumulIn (t s : Nat → Int) : List Nat → Int → Nat → Option Int
  | [], _, _ => none
  | a :: rest, c, i =>
    if a = i then some c else cumulIn t s rest (c + t a + s a) i

/-- Cumul value at the end of a whole route list, starting from `c`. -/
def cumulEnd (t s : Nat → Int) (l : List Nat) (c : Int) : Int :=
  l.foldl (fun acc a => acc + t a + s a) c

/-- Value of the `cumul(i)` variable in the accepted assignment: propagated
along the owning route from the vehicle's start cumul. -/
def cumulVal (rs : RouteSet) (ds : DimSolution) (i : Nat) : Int :=
  if i < rs.size then
    match rs.vehicleOf? i with
    | some v =>
      (cumulIn ds.fixedTransit ds.slackRaw (rs.routeL v) (ds.startCumul v) i).getD 0
    | none => 0
  else if i < rs.size + rs.num_vehicles then
    cumulEnd ds.fixedTransit ds.slackRaw (rs.routeL (i - rs.size)) (ds.startCumul (i - rs.size))
  else 0

/-- Modelled from the spec: the constraint wired by `add_dimension` when
`fix_start_cumul_to_zero` is set — the cumul variable of every vehicle's start
index is forced to `0`. -/
abbrev fixStartCumulConstraint (rs : RouteSet) (flag : Bool) (ds : DimSolution) : Prop :=
  flag = true → ∀ v, v < rs.num_vehicles → ds.startCumul v = 0

/-- Concrete accepted route structure: one vehicle, route `0 → 1 → end`,
index `2` unvisited. -/
def rsW : RouteSet := ⟨3, 1, fun _ => 0, fun v => if v = 0 then [1] else []⟩

/-- Concrete dimension solution values over `rsW`. -/
def dsW : DimSolution := ⟨fun i => (i : Int) + 2, fun _ => 1, fun _ => 0⟩

/-! ## Routing model build state -/

/-- A dimension registered on the model (`add_dimension` arguments). -/
structure DimensionRecord where
  name : String
  evaluator_index : Int
  slack_max : Int
  capacity : Int
  fix_start_cumul_to_zero : Bool
deriving DecidableEq

/-- The build-phase state of a `RoutingModel`: its registered dimensions in
registration order. -/
structure RoutingModelState where
  dimensions : List DimensionRecord
deriving DecidableEq

/-- Modelled from the spec: `add_dimension` returns `false` and changes nothing
if a dimension with the same name has already been created; otherwise it
registers the new dimension and returns `true`. -/
def add_dimension (st : RoutingModelState) (evaluator_index slack_max capacity : Int)
    (fix_start_cumul_to_zero : Bool) (name : String) : Bool × RoutingModelState :=
  if st.dimensions.any (fun d => d.name == name) then (false, st)
  else
    (true,
      ⟨st.dimensions ++
        [⟨name, evaluator_index, slack_max, capacity, fix_start_cumul_to_zero⟩]⟩)

/-- Modelled from the spec: `get_mutable_dimension` returns the dimension with
the given name, or an absent result if it does not exist. -/
def get_mutable_dimension (st : RoutingModelState) (name : String) : Option DimensionRecord :=
  st.dimensions.find? (fun d => d.name == name)

/-- Model state already holding a dimension named `Distance`. -/
def stW : RoutingModelState := ⟨[⟨"Distance", 0, 0, 3000, true⟩]⟩

/-! ## Solve entry point -/

/-- Modelled from the spec: the status carried by the result of
`solve_with_parameters` (`RoutingModelStatus` in the routing module). -/
inductive RoutingModelStatus where
  | routingNotSolved
  | routingSuccess
  | routingPartialSuccessLocalOptimumNotReached
  | routingFail
  | routingFailTimeout
  | routingInvalid
deriving DecidableEq

/-- The value returned by `solve_with_parameters`: always an assignment, whose
status tells whether a feasible solution was found. -/
structure SolveResult where
  status : RoutingModelStatus
  has_contents : Bool
  values : Nat → Int

/-- Modelled from the spec: `solve_with_parameters` delegates the search to the
external engine (given here by its outcome, the found variable valuation if
any) and always returns an assignment value; when no feasible solution is
found the assignment carries the terminal no-solution status instead of
raising a fatal error. -/
def solve_with_parameters (search_outcome : Option (Nat → Int)) : SolveResult :=
  match search_outcome with
  | some values => ⟨RoutingModelStatus.routingSuccess, true, values⟩
  | none => ⟨RoutingModelStatus.routingFail, false, fun _ => 0⟩

/-! ## Dimension variable accessors -/

/-- An underlying solver variable (opaque handle). -/
structure IntVarRef where
  id : Nat
deriving DecidableEq

/-- The per-index variable arrays of a `RoutingDimension`. -/
structure RoutingDimensionVars where
  cumuls : List IntVarRef
  transits : List IntVarRef
  fixed_transits : List IntVarRef
  slacks : List IntVarRef

/-- Modelled from the spec: `cumul_var(index)` — absent outside the valid
variable index range. -/
def cumul_var (d : RoutingDimensionVars) (index : Int) : Option IntVarRef :=
  if index < 0 then none else d.cumuls[index.toNat]?

/-- Modelled from the spec: `transit_var(index)` — absent outside the valid
variable index range. -/
def transit_var (d : RoutingDimensionVars) (index : Int) : Option IntVarRef :=
  if index < 0 then none else d.transits[index.toNat]?

/-- Modelled from the spec: `fixed_transit_var(index)` — absent outside the
valid variable index range. -/
def fixed_transit_var (d : RoutingDimensionVars) (index : Int) : Option IntVarRef :=
  if index < 0 then none else d.fixed_transits[index.toNat]?

/-- Modelled from the spec: `slack_var(index)` — absent outside the valid
variable index range. -/
def slack_var (d : RoutingDimensionVars) (index : Int) : Option IntVarRef :=
  if index < 0 then none else d.slacks[index.toNat]?

/-- Concrete dimension variable arrays over two variable indices. -/
def dimVarsW : RoutingDimensionVars :=
  ⟨[⟨0⟩, ⟨1⟩], [⟨2⟩, ⟨3⟩], [⟨4⟩, ⟨5⟩], [⟨6⟩, ⟨7⟩]⟩

/-! ## Arc costs -/

/-- The arc-cost state of the model: the uniform evaluator installed by
`set_arc_cost_evaluator_of_all_vehicles`. -/
structure ArcCostModel where
  evaluator : Int → Int → Int

/-- Modelled from the spec: `get_arc_cost_for_vehicle(from_index, to_index,
vehicle)` — the cost of the transit arc between two nodes for a given vehicle;
returns `0` if `vehicle < 0`. -/
def get_arc_cost_for_vehicle (m : ArcCostModel) (from_index to_index vehicle : Int) : Int :=
  if vehicle < 0 then 0 else m.evaluator from_index to_index

/-- Concrete arc-cost model whose evaluator sums its two indices. -/
def sumCostModel : ArcCostModel := ⟨fun a b => a + b⟩

/-! ## Theorems -/

theorem findStart_spec {l : List Nat} {node k : Nat}
    (h : findStart l node = some k) :
    l[k]? = some node ∧ ∀ j, j < k → l[j]? ≠ some node := by
  induction l generalizing k with
  | nil => simp [findStart] at h
  | cons s rest ih =>
    by_cases hs : s = node
    · simp [findStart, hs] at h
      subst h
      subst hs
      refine ⟨by simp, ?_⟩
      intro j hj
      omega
    · simp [findStart, hs] at h
      obtain ⟨k', hk', rfl⟩ := h
      obtain ⟨h1, h2⟩ := ih hk'
      refine ⟨by simpa using h1, ?_⟩
      intro j hj
      cases j with
      | zero => simpa using hs
      | succ j' =>
        have := h2 j' (by omega)
        simpa using this

theorem findStart_mem {l : List Nat} {node : Nat} (h : node ∈ l) :
    ∃ k, findStart l node = some k := by
  induction l with
  | nil => simp at h
  | cons s rest ih =>
    by_cases hs : s = node
    · exact ⟨0, by simp [findStart, hs]⟩
    · have hmem : node ∈ rest := by
        rcases List.mem_cons.mp h with h' | h'
        · exact absurd h'.symm hs
        · exact h'
      obtain ⟨k, hk⟩ := ih hmem
      exact ⟨k + 1, by simp [findStart, hs, hk]⟩

theorem findStart_not_mem {l : List Nat} {node : Nat} (h : node ∉ l) :
    findStart l node = none := by
  induction l with
  | nil => rfl
  | cons s rest ih =>
    have hs : s ≠ node := fun hc => h (by simp [hc])
    have hrest : node ∉ rest := fun hc => h (by simp [hc])
    simp [findStart, hs, ih hrest]

theorem not_mem_interior_of_mem_ends {m : RoutingIndexManager} {node : Nat}
    (h : node ∈ m.ends) : node ∉ m.interior_nodes := by
  intro hc
  have := (List.mem_filter.mp hc).2
  simp at this
  exact this.2 h

/-- Claim C4: `node_to_index` returns, for a node used as the start of several
vehicles, the start index of the first such vehicle in registration order, and
for a node used exclusively as an end node, the reserved unassigned sentinel. -/
theorem node_to_index_spec (m : RoutingIndexManager) (node : Nat) :
    ((∃ v w : Nat, v < w ∧ m.starts[v]? = some node ∧ m.starts[w]? = some node) →
      ∃ v, m.starts[v]? = some node ∧ (∀ u, u < v → m.starts[u]? ≠ some node) ∧
        m.node_to_index node = ((m.start_index v : Nat) : Int)) ∧
    (node ∈ m.ends → node ∉ m.starts → m.node_to_index node = kUnassigned) := by
  constructor
  · rintro ⟨v, w, -, hv, -⟩
    have hmem : node ∈ m.starts := by
      rw [List.mem_iff_getElem?]
      exact ⟨v, hv⟩
    obtain ⟨k, hk⟩ := findStart_mem hmem
    obtain ⟨h1, h2⟩ := findStart_spec hk
    exact ⟨k, h1, h2, by simp [RoutingIndexManager.node_to_index, hk]⟩
  · intro hend hstart
    have h1 : findStart m.starts node = none := findStart_not_mem hstart
    have h2 : findStart m.interior_nodes node = none :=
      findStart_not_mem (not_mem_interior_of_mem_ends hend)
    simp [RoutingIndexManager.node_to_index, h1, h2]

/-- Witness for claim C4 at a concrete manager: node 1 starts both vehicles,
node 2 is exclusively an end node. -/
theorem node_to_index_spec_witness :
    ∃ v, mgrSharedStart.starts[v]? = some 1 ∧
      (∀ u, u < v → mgrSharedStart.starts[u]? ≠ some 1) ∧
      mgrSharedStart.node_to_index 1 = ((mgrSharedStart.start_index v : Nat) : Int) :=
  (node_to_index_spec mgrSharedStart 1).1 ⟨0, 1, by decide, by decide, by decide⟩

/-- Claim C8: for a vehicle whose start node is shared with no other vehicle,
`node_to_index` inverts `index_to_node` at the vehicle's start index. -/
theorem start_index_round_trip (m : RoutingIndexManager) (v : Nat)
    (hv : v < m.num_vehicles)
    (huniq : ∀ w, w < m.num_vehicles → m.starts[w]? = m.starts[v]? → w = v) :
    m.node_to_index (m.index_to_node (m.start_index v)) = ((m.start_index v : Nat) : Int) := by
  have hv' : v < m.starts.length := hv
  have hnode : m.index_to_node (m.start_index v) = m.starts[v] := by
    unfold RoutingIndexManager.index_to_node RoutingIndexManager.start_index
    rw [if_neg (by omega), if_pos (by
      have : v < m.num_vehicles := hv
      omega)]
    simp [List.getD_eq_getElem?_getD, List.getElem?_eq_getElem hv']
  rw [hnode]
  have hmem : m.starts[v] ∈ m.starts := List.getElem_mem hv'
  obtain ⟨k, hk⟩ := findStart_mem hmem
  obtain ⟨h1, -⟩ := findStart_spec hk
  have hklen : k < m.starts.length := by
    rcases List.getElem?_eq_some.mp h1 with ⟨h, -⟩
    exact h
  have hkv : k = v := huniq k hklen (by rw [h1, List.getElem?_eq_getElem hv'])
  subst hkv
  simp [RoutingIndexManager.node_to_index, hk]

/-- Witness for claim C8 at a concrete manager with unshared starts. -/
theorem start_index_round_trip_witness :
    0 < mgrDistinctStarts.num_vehicles ∧
      mgrDistinctStarts.node_to_index
          (mgrDistinctStarts.index_to_node (mgrDistinctStarts.start_index 0)) =
        ((mgrDistinctStarts.start_index 0 : Nat) : Int) :=
  ⟨by decide, start_index_round_trip mgrDistinctStarts 0 (by decide) (by decide)⟩

theorem vehicleOf?_some {rs : RouteSet} {i v : Nat}
    (h : rs.vehicleOf? i = some v) : v < rs.num_vehicles ∧ i ∈ rs.routeL v := by
  have hmem := List.mem_of_find?_eq_some h
  have hp := List.find?_some h
  simp at hmem hp
  exact ⟨hmem, hp⟩

theorem vehicleOf?_none {rs : RouteSet} {i : Nat}
    (h : rs.vehicleOf? i = none) :
    ∀ v, v < rs.num_vehicles → i ∉ rs.routeL v := by
  intro v hv hm
  have := List.find?_eq_none.mp h v (by simpa using hv)
  simp at this
  exact this hm

theorem vehicleOf?_eq_some_of_mem {rs : RouteSet} (hwf : rs.WF) {i v : Nat}
    (hv : v < rs.num_vehicles) (hm : i ∈ rs.routeL v) :
    rs.vehicleOf? i = some v := by
  rcases h : rs.vehicleOf? i with _ | w
  · exact absurd hm (vehicleOf?_none h v hv)
  · obtain ⟨hw, hmw⟩ := vehicleOf?_some h
    by_cases hvw : v = w
    · rw [hvw]
    · exact absurd hmw (((hwf.2.2 v hv w hw).resolve_left hvw) i hm)

theorem succIn_mem {l : List Nat} {e i : Nat} (h : i ∈ l) :
    ∃ j, succIn l e i = some j := by
  induction l with
  | nil => simp at h
  | cons a rest ih =>
    by_cases ha : a = i
    · exact ⟨rest.headD e, by simp [succIn, ha]⟩
    · have : i ∈ rest := by
        rcases List.mem_cons.mp h with h' | h'
        · exact absurd h'.symm ha
        · exact h'
      obtain ⟨j, hj⟩ := ih this
      exact ⟨j, by simp [succIn, ha, hj]⟩

theorem succIn_cases {l : List Nat} {e i j : Nat} (hnd : l.Nodup)
    (h : succIn l e i = some j) : j = e ∨ (j ∈ l ∧ j ≠ i) := by
  induction l with
  | nil => simp [succIn] at h
  | cons a rest ih =>
    by_cases ha : a = i
    · simp [succIn, ha] at h
      cases rest with
      | nil => left; simpa using h.symm
      | cons b t =>
        right
        simp at h
        subst h
        refine ⟨by simp, ?_⟩
        intro hbi
        have : a ∉ b :: t := (List.nodup_cons.mp hnd).1
        rw [ha, ← hbi] at this
        exact this (by simp)
    · simp [succIn, ha] at h
      rcases ih (List.nodup_cons.mp hnd).2 h with h' | ⟨h1, h2⟩
      · exact Or.inl h'
      · exact Or.inr ⟨by simp [h1], h2⟩

/-- Claim C1: in every accepted assignment, for every variable index `i` in
range, the conditions `active(i) = false`, `next(i) = i` and `vehicle(i) = -1`
are pairwise equivalent, and `next(i) = j` implies `vehicle(j) = vehicle(i)`. -/
theorem path_variable_invariants (rs : RouteSet) (hwf : rs.WF) (i : Nat)
    (hi : i < rs.size) :
    ((rs.activeFn i = false ↔ rs.nextFn i = i) ∧
      (rs.activeFn i = false ↔ rs.vehicleFn i = -1)) ∧
    (∀ j, rs.nextFn i = j → rs.vehicleFn j = rs.vehicleFn i) := by
  rcases h : rs.vehicleOf? i with _ | v
  · have hnext : rs.nextFn i = i := by simp [RouteSet.nextFn, hi, h]
    have hveh : rs.vehicleFn i = -1 := by simp [RouteSet.vehicleFn, hi, h]
    have hact : rs.activeFn i = false := by simp [RouteSet.activeFn, h]
    refine ⟨⟨⟨fun _ => hnext, fun _ => hact⟩, ⟨fun _ => hveh, fun _ => hact⟩⟩, ?_⟩
    intro j hj
    have hij : j = i := by rw [hnext] at hj; exact hj.symm
    rw [hij]
  · obtain ⟨hv, hmem⟩ := vehicleOf?_some h
    obtain ⟨j', hj'⟩ := succIn_mem (e := rs.endIndex v) hmem
    have hnd := hwf.2.1 v hv
    have hnext : rs.nextFn i = j' := by simp [RouteSet.nextFn, hi, h, hj']
    have hact : rs.activeFn i = true := by simp [RouteSet.activeFn, h]
    have hvehi : rs.vehicleFn i = (v : Int) := by simp [RouteSet.vehicleFn, hi, h]
    have hji : j' ≠ i := by
      rcases succIn_cases hnd hj' with h' | ⟨-, h2⟩
      · rw [h']
        unfold RouteSet.endIndex
        omega
      · exact h2
    refine ⟨⟨?_, ?_⟩, ?_⟩
    · constructor
      · intro hc
        rw [hact] at hc
        cases hc
      · intro hc
        rw [hnext] at hc
        exact absurd hc hji
    · constructor
      · intro hc
        rw [hact] at hc
        cases hc
      · intro hc
        rw [hvehi] at hc
        omega
    · intro j hj
      rw [hnext] at hj
      subst hj
      rcases succIn_cases hnd hj' with he | ⟨hmemj, -⟩
      · rw [he, hvehi]
        unfold RouteSet.vehicleFn RouteSet.endIndex
        rw [if_neg (by omega), if_pos (by omega)]
        simp
      · have hjs : j' < rs.size := hwf.1 v hv j' hmemj
        have hvj : rs.vehicleOf? j' = some v := vehicleOf?_eq_some_of_mem hwf hv hmemj
        rw [hvehi]
        simp [RouteSet.vehicleFn, hjs, hvj]

/-- Witness for claim C1 at a concrete accepted assignment, at index 1. -/
theorem path_variable_invariants_witness :
    rsW.WF ∧ 1 < rsW.size ∧
      (((rsW.activeFn 1 = false ↔ rsW.nextFn 1 = 1) ∧
        (rsW.activeFn 1 = false ↔ rsW.vehicleFn 1 = -1)) ∧
       (∀ j, rsW.nextFn 1 = j → rsW.vehicleFn j = rsW.vehicleFn 1)) :=
  ⟨by decide, by decide, path_variable_invariants rsW (by decide) 1 (by decide)⟩

theorem cumulIn_succ (t s : Nat → Int) {l : List Nat} {e i j : Nat} {c : Int}
    (hnd : l.Nodup) (hs : succIn l e i = some j) :
    ∃ c', cumulIn t s l c i = some c' ∧
      ((j ∈ l ∧ cumulIn t s l c j = some (c' + t i + s i)) ∨
        (j = e ∧ cumulEnd t s l c = c' + t i + s i)) := by
  revert hnd hs
  induction l generalizing c with
  | nil =>
    intro hnd hs
    simp [succIn] at hs
  | cons a rest ih =>
    intro hnd hs
    by_cases ha : a = i
    · subst ha
      have hs' : rest.headD e = j := by simpa [succIn] using hs
      cases rest with
      | nil =>
        refine ⟨c, by simp [cumulIn], Or.inr ⟨by simpa using hs'.symm, ?_⟩⟩
        simp [cumulEnd]
      | cons b t' =>
        have hbj : b = j := by simpa using hs'
        have hab : a ≠ b := by
          intro hc
          exact (List.nodup_cons.mp hnd).1 (hc ▸ List.mem_cons_self b t')
        have haj : a ≠ j := hbj ▸ hab
        refine ⟨c, by simp [cumulIn], Or.inl ⟨by simp [← hbj], ?_⟩⟩
        simp [cumulIn, haj, hbj]
    · have hs'' : succIn rest e i = some j := by simpa [succIn, ha] using hs
      obtain ⟨c', h1, h2⟩ := ih (c := c + t a + s a) (List.nodup_cons.mp hnd).2 hs''
      refine ⟨c', by simp [cumulIn, ha, h1], ?_⟩
      rcases h2 with ⟨hj1, hj2⟩ | ⟨hj1, hj2⟩
      · left
        have haj : a ≠ j := by
          intro hc
          exact (List.nodup_cons.mp hnd).1 (hc ▸ hj1)
        exact ⟨by simp [hj1], by simp [cumulIn, haj, hj2]⟩
      · right
        refine ⟨hj1, ?_⟩
        have hce : cumulEnd t s (a :: rest) c = cumulEnd t s rest (c + t a + s a) := by
          simp [cumulEnd]
        rw [hce]
        exact hj2

/-- Claim C2: for every dimension and every accepted assignment, `next(i) = j`
implies `cumul(j) = cumul(i) + transit(i) + slack(i)`, slack included. -/
theorem dimension_recurrence (rs : RouteSet) (ds : DimSolution) (hwf : rs.WF)
    (i j : Nat) (hi : i < rs.size) (hnext : rs.nextFn i = j) :
    cumulVal rs ds j = cumulVal rs ds i + transitVal rs ds i + slackVal rs ds i := by
  rcases h : rs.vehicleOf? i with _ | v
  · have hji : j = i := by
      have := hnext.symm
      simpa [RouteSet.nextFn, hi, h] using this
    subst hji
    have hact : rs.activeFn j = false := by simp [RouteSet.activeFn, h]
    simp [transitVal, slackVal, hact]
  · obtain ⟨hv, hmem⟩ := vehicleOf?_some h
    have hact : rs.activeFn i = true := by simp [RouteSet.activeFn, h]
    have hnd := hwf.2.1 v hv
    obtain ⟨j', hj'⟩ := succIn_mem (e := rs.endIndex v) hmem
    have hjj : j' = j := by simpa [RouteSet.nextFn, hi, h, hj'] using hnext
    subst hjj
    obtain ⟨c', hc1, hc2⟩ :=
      cumulIn_succ ds.fixedTransit ds.slackRaw (c := ds.startCumul v) hnd hj'
    have hcv : cumulVal rs ds i = c' := by simp [cumulVal, hi, h, hc1]
    rcases hc2 with ⟨hj1, hj2⟩ | ⟨hj1, hj2⟩
    · have hjs : j' < rs.size := hwf.1 v hv j' hj1
      have hvj : rs.vehicleOf? j' = some v := vehicleOf?_eq_some_of_mem hwf hv hj1
      rw [hcv]
      simp [cumulVal, hjs, hvj, hj2, transitVal, slackVal, hact]
    · subst hj1
      have hsz : ¬ rs.endIndex v < rs.size := by unfold RouteSet.endIndex; omega
      have hsz2 : rs.endIndex v < rs.size + rs.num_vehicles := by
        unfold RouteSet.endIndex; omega
      have hvv : rs.endIndex v - rs.size = v := by unfold RouteSet.endIndex; omega
      rw [hcv]
      simp [cumulVal, hsz, hsz2, hvv, hj2, transitVal, slackVal, hact]

/-- Witness for claim C2 at a concrete accepted assignment and dimension, at
the arc from index 0 to index 1. -/
theorem dimension_recurrence_witness :
    rsW.WF ∧ 0 < rsW.size ∧ rsW.nextFn 0 = 1 ∧
      cumulVal rsW dsW 1 = cumulVal rsW dsW 0 + transitVal rsW dsW 0 + slackVal rsW dsW 0 :=
  ⟨by decide, by decide, by decide,
    dimension_recurrence rsW dsW (by decide) 0 1 (by decide) (by decide)⟩

/-- Claim C7: for a dimension added with `fix_start_cumul_to_zero = true`, the
cumul variable of every vehicle's start index evaluates to 0 in every solved
assignment. -/
theorem fix_start_cumul_zero (rs : RouteSet) (ds : DimSolution) (hwf : rs.WF)
    (flag : Bool) (hcon : fixStartCumulConstraint rs flag ds) (hflag : flag = true)
    (v : Nat) (hv : v < rs.num_vehicles) :
    cumulVal rs ds (rs.startOf v) = 0 := by
  have hmem : rs.startOf v ∈ rs.routeL v := by simp [RouteSet.routeL]
  have hsz : rs.startOf v < rs.size := hwf.1 v hv _ hmem
  have hvo : rs.vehicleOf? (rs.startOf v) = some v := vehicleOf?_eq_some_of_mem hwf hv hmem
  have hcv : cumulIn ds.fixedTransit ds.slackRaw (rs.routeL v) (ds.startCumul v)
      (rs.startOf v) = some (ds.startCumul v) := by
    simp [RouteSet.routeL, cumulIn]
  have hval : cumulVal rs ds (rs.startOf v) = ds.startCumul v := by
    simp [cumulVal, hsz, hvo, hcv]
  rw [hval, hcon hflag v hv]

/-- Claim C5: calling `add_dimension` with a name that already exists returns
`false`, creates no new dimension, and leaves the existing dimension (and the
whole model state) unchanged. -/
theorem add_dimension_duplicate (st : RoutingModelState) (e s c : Int) (f : Bool)
    (n : String) (hdup : ∃ d ∈ st.dimensions, d.name = n) :
    (add_dimension st e s c f n).1 = false ∧ (add_dimension st e s c f n).2 = st ∧
      get_mutable_dimension (add_dimension st e s c f n).2 n =
        get_mutable_dimension st n := by
  obtain ⟨d, hd, hname⟩ := hdup
  have hany : st.dimensions.any (fun d => d.name == n) = true := by
    rw [List.any_eq_true]
    exact ⟨d, hd, by simp [hname]⟩
  simp [add_dimension, hany]

/-- Witness for claim C5: a second `Distance` dimension is rejected and the
model state is untouched. -/
theorem add_dimension_duplicate_witness :
    (add_dimension stW 1 5 100 false "Distance").1 = false ∧
      (add_dimension stW 1 5 100 false "Distance").2 = stW ∧
      get_mutable_dimension (add_dimension stW 1 5 100 false "Distance").2 "Distance" =
        get_mutable_dimension stW "Distance" :=
  add_dimension_duplicate stW 1 5 100 false "Distance" (by decide)

/-- Claim C6: `solve_with_parameters` always returns an assignment value; when
the search finds no feasible solution the assignment carries the terminal
no-solution status, which is distinct from the success status and from the
invalid-model (fatal) status. -/
theorem solve_with_parameters_total (search_outcome : Option (Nat → Int)) :
    (search_outcome = none →
      (solve_with_parameters search_outcome).status = RoutingModelStatus.routingFail) ∧
    (∀ values, search_outcome = some values →
      (solve_with_parameters search_outcome).status = RoutingModelStatus.routingSuccess) ∧
    RoutingModelStatus.routingFail ≠ RoutingModelStatus.routingSuccess ∧
    RoutingModelStatus.routingFail ≠ RoutingModelStatus.routingInvalid := by
  refine ⟨?_, ?_, by decide, by decide⟩
  · intro h
    subst h
    rfl
  · intro values h
    subst h
    rfl

/-- Witness for claim C6: the no-solution search outcome yields the terminal
no-solution status. -/
theorem solve_with_parameters_total_witness :
    (solve_with_parameters none).status = RoutingModelStatus.routingFail :=
  (solve_with_parameters_total none).1 rfl

/-- Claim C9: each of the dimension accessors `cumul_var`, `transit_var`,
`slack_var` and `fixed_transit_var` returns an absent result for every index
outside the valid variable index range. -/
theorem dimension_accessors_out_of_range (d : RoutingDimensionVars) (n : Nat)
    (hc : d.cumuls.length = n) (ht : d.transits.length = n)
    (hf : d.fixed_transits.length = n) (hs : d.slacks.length = n)
    (index : Int) (hout : index < 0 ∨ (n : Int) ≤ index) :
    cumul_var d index = none ∧ transit_var d index = none ∧
      fixed_transit_var d index = none ∧ slack_var d index = none := by
  rcases hout with hneg | hge
  · simp [cumul_var, transit_var, fixed_transit_var, slack_var, hneg]
  · have hnn : ¬ index < 0 := by omega
    have h1 : d.cumuls[index.toNat]? = none := List.getElem?_eq_none (by omega)
    have h2 : d.transits[index.toNat]? = none := List.getElem?_eq_none (by omega)
    have h3 : d.fixed_transits[index.toNat]? = none := List.getElem?_eq_none (by omega)
    have h4 : d.slacks[index.toNat]? = none := List.getElem?_eq_none (by omega)
    exact ⟨by simp [cumul_var, hnn, h1], by simp [transit_var, hnn, h2],
      by simp [fixed_transit_var, hnn, h3], by simp [slack_var, hnn, h4]⟩

/-- Witness for claim C9: index 5 is outside the two-index range and every
accessor is absent there. -/
theorem dimension_accessors_out_of_range_witness :
    cumul_var dimVarsW 5 = none ∧ transit_var dimVarsW 5 = none ∧
      fixed_transit_var dimVarsW 5 = none ∧ slack_var dimVarsW 5 = none :=
  dimension_accessors_out_of_range dimVarsW 2 (by decide) (by decide) (by decide)
    (by decide) 5 (Or.inr (by decide))

/-- Claim C10: `get_arc_cost_for_vehicle` returns 0 whenever `vehicle < 0`,
for all variable indices. -/
theorem get_arc_cost_for_vehicle_negative (m : ArcCostModel)
    (from_index to_index vehicle : Int) (h : vehicle < 0) :
    get_arc_cost_for_vehicle m from_index to_index vehicle = 0 := by
  simp [get_arc_cost_for_vehicle, h]

/-- Witness for claim C10 at a concrete evaluator and `vehicle = -1`. -/
theorem get_arc_cost_for_vehicle_negative_witness :
    (-1 : Int) < 0 ∧ get_arc_cost_for_vehicle sumCostModel 2 3 (-1) = 0 :=
  ⟨by decide, get_arc_cost_for_vehicle_negative sumCostModel 2 3 (-1) (by decide)⟩

/-- Witness for claim C7 at a concrete accepted assignment with the start
cumul forced to zero, for vehicle 0. -/
theorem fix_start_cumul_zero_witness :
    rsW.WF ∧ fixStartCumulConstraint rsW true dsW ∧ 0 < rsW.num_vehicles ∧
      cumulVal rsW dsW (rsW.startOf 0) = 0 :=
  ⟨by decide, fun _ => by decide, by decide,
    fix_start_cumul_zero rsW dsW (by decide) true (fun _ => by decide) rfl 0 (by decide)⟩

end OrTools
